import Mathlib

/-!
# Verification of the pytntp TNTP readers (`src/tntp.py`)

This file is a shallow embedding of `tntp.py`, the reader module for
TransportationNetworks (TNTP) plain-text files, together with theorems about
the embedded functions.

Modelling conventions:

* Text is `List Char`.  A parsed file is a `List Tok` of lines (`Tok` is
  `List Char`); the embedding never performs IO, the file *content* is the
  argument.
* Table cells are kept as the raw text of the field (`Tok`), pandas dtype
  inference is not modelled: no claim under consideration depends on numeric
  interpretation of cells, only on their identity.
* The two regular expressions of `read_demand_file`
  (`Origin\s+(\d+)` and `(\d+)\s*:\s*(\d+(?:\.\d+));`) are embedded as
  character-level matchers.  Both patterns are free of genuine backtracking:
  every greedy piece (`\d+`, `\s*`, `\s+`) is followed by a character that the
  piece itself can never match, so maximal munch is exact.  `re.findall` and
  `re.split` scan left to right, trying a match at every position and
  advancing past each successful match; the scanners below do the same.
  They use explicit fuel (initialised with the length of the input) so that
  the kernel can evaluate them; fuel never runs out because every step
  consumes at least one character.
* Demand values are parsed into `ℚ` (the entry regex captures
  `digits.digits`, which is an exact decimal); Python stores them as IEEE
  doubles, but every claim checked here only involves exactly representable
  values or the mere presence of entries.
* pandas errors are modelled by `TntpError`:  `duplicateKey` is the
  `ValueError` raised by `set_index(..., verify_integrity=True)` (the spec's
  `DuplicateKeyError`), `pivotDuplicate` the `ValueError` raised by
  `DataFrame.pivot` on duplicated (index, column) pairs, `keyError` the
  `KeyError` of `drop`/`set_index`/column lookup, and `emptyData` the
  `EmptyDataError` of `read_csv` on an input with no rows.
* `convert_to_networkx` mutates its arguments (`node_df["x"] = ...`,
  `flow_df.index.set_names(..., inplace=True)`); the embedding passes state
  explicitly and returns the post-state of both mutated arguments together
  with the constructed graph.
-/

/-- Text tokens: the raw text of a field or column name. -/
abbrev Tok := List Char

/-- Shorthand to write a token as a string literal. -/
def tok (s : String) : Tok := s.data

/-- The Python `\s` class, restricted to ASCII (all whitespace occurring in
TNTP files): space, tab, newline, carriage return, vertical tab, form feed. -/
def isPySpace (c : Char) : Bool :=
  (c == ' ') || (c == '\t') || (c == '\n') || (c == '\r') || (c == '\x0b') || (c == '\x0c')

/-- Greedy scan: the maximal prefix whose characters satisfy `p`, and the rest.
This is the exact behaviour of a greedy `X*`/`X+` regex piece whose follower
can never match an `X`. -/
def takeDrop (p : Char → Bool) : List Char → List Char × List Char
  | [] => ([], [])
  | c :: cs =>
    if p c then
      let t := takeDrop p cs
      (c :: t.1, t.2)
    else ([], c :: cs)

theorem takeDrop_fst_append_snd (p : Char → Bool) (l : List Char) :
    (takeDrop p l).1 ++ (takeDrop p l).2 = l := by
  induction l with
  | nil => rfl
  | cons c cs ih =>
    by_cases h : p c <;> simp [takeDrop, h, ih]

theorem takeDrop_snd_length_le (p : Char → Bool) (l : List Char) :
    (takeDrop p l).2.length ≤ l.length := by
  conv_rhs => rw [← takeDrop_fst_append_snd p l]
  simp

theorem mem_of_mem_takeDrop_snd (p : Char → Bool) (l : List Char) (c : Char)
    (h : c ∈ (takeDrop p l).2) : c ∈ l := by
  rw [← takeDrop_fst_append_snd p l]
  exact List.mem_append_right _ h

/-- `takeDrop` on a string that starts with a `p`-block followed by a
non-`p` character (or the end): the split is exactly at the boundary. -/
theorem takeDrop_eq_of_boundary (p : Char → Bool) (pre rest : List Char)
    (h1 : ∀ c ∈ pre, p c = true)
    (h2 : ∀ c, rest.head? = some c → p c = false) :
    takeDrop p (pre ++ rest) = (pre, rest) := by
  induction pre with
  | nil =>
    cases rest with
    | nil => rfl
    | cons c cs => simp [takeDrop, h2 c rfl]
  | cons c cs ih =>
    have hc : p c = true := h1 c (List.mem_cons_self c cs)
    have h := ih (fun d hd => h1 d (List.mem_cons_of_mem c hd))
    simp [takeDrop, hc, List.append_eq, h]

/-- Match a literal character sequence at the start of the input. -/
def eatLit : List Char → List Char → Option (List Char)
  | [], l => some l
  | _ :: _, [] => none
  | p :: ps, c :: cs => if c = p then eatLit ps cs else none

theorem eatLit_self_append (p t : List Char) : eatLit p (p ++ t) = some t := by
  induction p with
  | nil => rfl
  | cons c cs ih => simp [eatLit, ih]

theorem eatLit_length (p : List Char) : ∀ l r, eatLit p l = some r →
    p.length + r.length = l.length := by
  induction p with
  | nil => intro l r h; simp [eatLit] at h; simp [h]
  | cons c cs ih =>
    intro l r h
    cases l with
    | nil => simp [eatLit] at h
    | cons d ds =>
      simp only [eatLit] at h
      by_cases hd : d = c
      · simp only [hd, if_true] at h
        have := ih ds r h
        simp [List.length_cons, ← this]
        omega
      · simp [hd] at h

/-! ## The demand-entry pattern `(\d+)\s*:\s*(\d+(?:\.\d+));`

`matchDemandAt l` attempts a match of the entry pattern anchored at the start
of `l`; on success it returns the two captured groups (the destination digits
and the demand value split as integer digits and fraction digits) and the
text after the match. -/

def matchDemandAt (l : List Char) :
    Option (List Char × List Char × List Char × List Char) :=
  let s1 := takeDrop Char.isDigit l
  if s1.1.isEmpty then none else
  match (takeDrop isPySpace s1.2).2 with
  | ':' :: r3 =>
    let s4 := takeDrop Char.isDigit (takeDrop isPySpace r3).2
    if s4.1.isEmpty then none else
    match s4.2 with
    | '.' :: r6 =>
      let s5 := takeDrop Char.isDigit r6
      if s5.1.isEmpty then none else
      match s5.2 with
      | ';' :: r8 => some (s1.1, s4.1, s5.1, r8)
      | _ => none
    | _ => none
  | _ => none

theorem matchDemandAt_nil : matchDemandAt [] = none := rfl

theorem matchDemandAt_none_of_head_not_digit (c : Char) (cs : List Char)
    (h : c.isDigit = false) : matchDemandAt (c :: cs) = none := by
  simp [matchDemandAt, takeDrop, h]

/-- A nonempty matched block makes `takeDrop` consume at least one character. -/
theorem takeDrop_snd_length_lt (p : Char → Bool) (l : List Char)
    (h : (takeDrop p l).1.isEmpty = false) : (takeDrop p l).2.length < l.length := by
  have ha := congrArg List.length (takeDrop_fst_append_snd p l)
  simp only [List.length_append] at ha
  have hne : (takeDrop p l).1 ≠ [] := by
    intro hh
    rw [hh] at h
    simp at h
  have hpos : 0 < (takeDrop p l).1.length := List.length_pos.mpr hne
  omega

/-- Every successful match of the entry pattern consumes a `';'`:
the input must contain a semicolon. -/
theorem matchDemandAt_semicolon_mem (l d i f r : List Char)
    (h : matchDemandAt l = some (d, i, f, r)) : ';' ∈ l := by
  simp only [matchDemandAt] at h
  split at h
  · simp at h
  · split at h
    · split at h
      · simp at h
      · split at h
        · split at h
          · simp at h
          · split at h
            · rename_i hne1 x2 r3 heq2 hne4 x4 r6 heq4 hne5 x5 r8 heq5
              have t1 : ';' ∈ (takeDrop Char.isDigit r6).2 := by
                rw [heq5]; exact List.mem_cons_self _ _
              have t2 : ';' ∈ r6 := mem_of_mem_takeDrop_snd _ _ _ t1
              have t3 : ';' ∈ (takeDrop Char.isDigit (takeDrop isPySpace r3).2).2 := by
                rw [heq4]; exact List.mem_cons_of_mem _ t2
              have t4 : ';' ∈ r3 :=
                mem_of_mem_takeDrop_snd _ _ _ (mem_of_mem_takeDrop_snd _ _ _ t3)
              have t5 : ';' ∈ (takeDrop isPySpace (takeDrop Char.isDigit l).2).2 := by
                rw [heq2]; exact List.mem_cons_of_mem _ t4
              exact mem_of_mem_takeDrop_snd _ _ _ (mem_of_mem_takeDrop_snd _ _ _ t5)
            · simp at h
        · simp at h
    · simp at h

/-- A successful entry match consumes at least one character. -/
theorem matchDemandAt_length (l d i f r : List Char)
    (h : matchDemandAt l = some (d, i, f, r)) : r.length < l.length := by
  simp only [matchDemandAt] at h
  split at h
  · simp at h
  · split at h
    · split at h
      · simp at h
      · split at h
        · split at h
          · simp at h
          · split at h
            · rename_i hne1 x2 r3 heq2 hne4 x4 r6 heq4 hne5 x5 r8 heq5
              simp only [Option.some.injEq, Prod.mk.injEq] at h
              obtain ⟨-, -, -, hr⟩ := h
              subst hr
              have L1 : (takeDrop Char.isDigit l).2.length < l.length :=
                takeDrop_snd_length_lt _ _ (by simpa using hne1)
              have L2 := takeDrop_snd_length_le isPySpace (takeDrop Char.isDigit l).2
              rw [heq2] at L2
              simp only [List.length_cons] at L2
              have L3 := takeDrop_snd_length_le isPySpace r3
              have L4 := takeDrop_snd_length_le Char.isDigit (takeDrop isPySpace r3).2
              rw [heq4] at L4
              simp only [List.length_cons] at L4
              have L5 := takeDrop_snd_length_le Char.isDigit r6
              rw [heq5] at L5
              simp only [List.length_cons] at L5
              omega
            · simp at h
        · simp at h
    · simp at h

theorem isPySpace_not_digit (c : Char) (h : isPySpace c = true) : c.isDigit = false := by
  simp only [isPySpace, Bool.or_eq_true, beq_iff_eq] at h
  rcases h with ((((h | h) | h) | h) | h) | h <;> subst h <;> decide

theorem isDigit_not_pyspace (c : Char) (h : c.isDigit = true) : isPySpace c = false := by
  cases hs : isPySpace c with
  | false => rfl
  | true => rw [isPySpace_not_digit c hs] at h; exact absurd h (by simp)

theorem ne_O_of_pyspace (c : Char) (h : isPySpace c = true) : c ≠ 'O' := by
  intro hh
  subst hh
  exact absurd h (by decide)

theorem ne_O_of_digit (c : Char) (h : c.isDigit = true) : c ≠ 'O' := by
  intro hh
  subst hh
  exact absurd h (by decide)

theorem isEmpty_false_of_ne_nil (l : List Char) (h : l ≠ []) : l.isEmpty = false := by
  cases l with
  | nil => exact absurd rfl h
  | cons c cs => rfl

/-- A successful anchored match of the entry pattern on a well-formed entry:
destination digits, whitespace, colon, whitespace, integer digits, dot,
fraction digits, semicolon — the groups captured are exactly the digit
blocks, and the remainder is whatever follows the semicolon.  No condition
is placed on `rest`: the pattern never looks past the `';'`. -/
theorem matchDemandAt_entry (d ws1 ws2 i f rest : List Char)
    (hd : d ≠ []) (hdd : ∀ c ∈ d, c.isDigit = true)
    (hw1 : ∀ c ∈ ws1, isPySpace c = true) (hw2 : ∀ c ∈ ws2, isPySpace c = true)
    (hi : i ≠ []) (hid : ∀ c ∈ i, c.isDigit = true)
    (hf : f ≠ []) (hfd : ∀ c ∈ f, c.isDigit = true) :
    matchDemandAt (d ++ (ws1 ++ ':' :: (ws2 ++ (i ++ '.' :: (f ++ ';' :: rest))))) =
      some (d, i, f, rest) := by
  have hb1 : ∀ c, (ws1 ++ ':' :: (ws2 ++ (i ++ '.' :: (f ++ ';' :: rest)))).head? = some c →
      Char.isDigit c = false := by
    intro c hc
    cases ws1 with
    | nil =>
      simp only [List.nil_append, List.head?_cons, Option.some.injEq] at hc
      subst hc; decide
    | cons w ws =>
      simp only [List.cons_append, List.head?_cons, Option.some.injEq] at hc
      subst hc
      exact isPySpace_not_digit w (hw1 w (List.mem_cons_self w ws))
  have hb3 : ∀ c, (i ++ '.' :: (f ++ ';' :: rest)).head? = some c → isPySpace c = false := by
    intro c hc
    cases i with
    | nil => exact absurd rfl hi
    | cons w ws =>
      simp only [List.cons_append, List.head?_cons, Option.some.injEq] at hc
      subst hc
      exact isDigit_not_pyspace w (hid w (List.mem_cons_self w ws))
  have e1 := takeDrop_eq_of_boundary Char.isDigit d
    (ws1 ++ ':' :: (ws2 ++ (i ++ '.' :: (f ++ ';' :: rest)))) hdd hb1
  have e2 := takeDrop_eq_of_boundary isPySpace ws1
    (':' :: (ws2 ++ (i ++ '.' :: (f ++ ';' :: rest)))) hw1
    (by intro c hc; simp only [List.head?_cons, Option.some.injEq] at hc; subst hc; decide)
  have e3 := takeDrop_eq_of_boundary isPySpace ws2 (i ++ '.' :: (f ++ ';' :: rest)) hw2 hb3
  have e4 := takeDrop_eq_of_boundary Char.isDigit i ('.' :: (f ++ ';' :: rest)) hid
    (by intro c hc; simp only [List.head?_cons, Option.some.injEq] at hc; subst hc; decide)
  have e5 := takeDrop_eq_of_boundary Char.isDigit f (';' :: rest) hfd
    (by intro c hc; simp only [List.head?_cons, Option.some.injEq] at hc; subst hc; decide)
  simp only [matchDemandAt, e1, isEmpty_false_of_ne_nil d hd, e2, e3, e4,
    isEmpty_false_of_ne_nil i hi, e5, isEmpty_false_of_ne_nil f hf]
  simp

/-! ## The origin-header pattern `Origin\s+(\d+)` -/

/-- The literal part of the header pattern. -/
def originLit : List Char := ['O', 'r', 'i', 'g', 'i', 'n']

/-- Attempt a match of `Origin\s+(\d+)` anchored at the start of the input;
on success, return the captured origin digits and the rest of the input. -/
def matchHeaderAt (l : List Char) : Option (List Char × List Char) :=
  match eatLit originLit l with
  | none => none
  | some r0 =>
    let s1 := takeDrop isPySpace r0
    if s1.1.isEmpty then none else
    let s2 := takeDrop Char.isDigit s1.2
    if s2.1.isEmpty then none else some (s2.1, s2.2)

theorem matchHeaderAt_nil : matchHeaderAt [] = none := rfl

theorem matchHeaderAt_none_of_head_ne_O (c : Char) (cs : List Char) (h : c ≠ 'O') :
    matchHeaderAt (c :: cs) = none := by
  simp [matchHeaderAt, originLit, eatLit, h]

/-- A successful anchored match of the header pattern on a well-formed header:
the captured group is exactly the digit block and the rest is what follows it. -/
theorem matchHeaderAt_header (osp o rest : List Char)
    (hosp : osp ≠ []) (hsp : ∀ c ∈ osp, isPySpace c = true)
    (ho : o ≠ []) (hod : ∀ c ∈ o, c.isDigit = true)
    (hrest : ∀ c, rest.head? = some c → c.isDigit = false) :
    matchHeaderAt (originLit ++ (osp ++ (o ++ rest))) = some (o, rest) := by
  have hb1 : ∀ c, (o ++ rest).head? = some c → isPySpace c = false := by
    intro c hc
    cases o with
    | nil => exact absurd rfl ho
    | cons w ws =>
      simp only [List.cons_append, List.head?_cons, Option.some.injEq] at hc
      subst hc
      exact isDigit_not_pyspace w (hod w (List.mem_cons_self w ws))
  have e1 := takeDrop_eq_of_boundary isPySpace osp (o ++ rest) hsp hb1
  have e2 := takeDrop_eq_of_boundary Char.isDigit o rest hod hrest
  simp only [matchHeaderAt, eatLit_self_append, e1, isEmpty_false_of_ne_nil osp hosp,
    e2, isEmpty_false_of_ne_nil o ho]
  simp

theorem matchHeaderAt_length (l o r : List Char)
    (h : matchHeaderAt l = some (o, r)) : r.length < l.length := by
  simp only [matchHeaderAt] at h
  cases he : eatLit originLit l with
  | none => rw [he] at h; simp at h
  | some r0 =>
    rw [he] at h
    replace h : (if (takeDrop isPySpace r0).1.isEmpty = true then none
        else if (takeDrop Char.isDigit (takeDrop isPySpace r0).2).1.isEmpty = true then none
        else some ((takeDrop Char.isDigit (takeDrop isPySpace r0).2).1,
          (takeDrop Char.isDigit (takeDrop isPySpace r0).2).2)) = some (o, r) := h
    have hlen := eatLit_length originLit l r0 he
    by_cases hh1 : (takeDrop isPySpace r0).1.isEmpty = true
    · rw [if_pos hh1] at h
      exact absurd h (by simp)
    · rw [if_neg hh1] at h
      by_cases hh2 : (takeDrop Char.isDigit (takeDrop isPySpace r0).2).1.isEmpty = true
      · rw [if_pos hh2] at h
        exact absurd h (by simp)
      · rw [if_neg hh2] at h
        injection h with h2
        have hr : (takeDrop Char.isDigit (takeDrop isPySpace r0).2).2 = r :=
          congrArg Prod.snd h2
        have L1 := takeDrop_snd_length_le isPySpace r0
        have L2 := takeDrop_snd_length_le Char.isDigit (takeDrop isPySpace r0).2
        rw [hr] at L2
        simp only [originLit, List.length_cons] at hlen
        omega

/-! ## The scanners behind `re.findall` and `re.split`

`re.findall(demand_pattern, block)` scans the block from left to right,
attempting a match at every position and advancing past every successful
match.  `re.split(header_pattern, data)` does the same with the header
pattern, yielding the text before the first match, then alternately the
captured origin and the text up to the next match; `read_demand_file` drops
the leading chunk and pairs the rest (`itertools.batched(blocks, 2)`), which
is exactly the `(origin, body)` list returned by `scanBlocks` below. -/

def findAllDemandF : Nat → List Char → List (List Char × List Char × List Char)
  | _, [] => []
  | 0, _ :: _ => []
  | fuel + 1, c :: cs =>
    match matchDemandAt (c :: cs) with
    | some (d, i, f, r) => (d, i, f) :: findAllDemandF fuel r
    | none => findAllDemandF fuel cs

/-- All matches of the entry pattern, scanning left to right. -/
def findAllDemand (l : List Char) : List (List Char × List Char × List Char) :=
  findAllDemandF l.length l

theorem findAllDemandF_fuel_irrelevant :
    ∀ (m : Nat), ∀ (n : Nat) (l : List Char), l.length ≤ m → l.length ≤ n →
      findAllDemandF m l = findAllDemandF n l := by
  intro m
  induction m with
  | zero =>
    intro n l hm hn
    have : l = [] := List.length_eq_zero.mp (Nat.le_zero.mp hm)
    subst this
    cases n <;> rfl
  | succ m ih =>
    intro n l hm hn
    cases l with
    | nil => cases n <;> rfl
    | cons c cs =>
      cases n with
      | zero => simp at hn
      | succ n =>
        cases hmm : matchDemandAt (c :: cs) with
        | none =>
          simp only [findAllDemandF, hmm]
          simp only [List.length_cons] at hm hn
          exact ih n cs (by omega) (by omega)
        | some v =>
          obtain ⟨d, i, f, r⟩ := v
          have hr := matchDemandAt_length (c :: cs) d i f r hmm
          simp only [findAllDemandF, hmm]
          simp only [List.length_cons] at hm hn hr
          rw [ih n r (by omega) (by omega)]

theorem findAllDemand_nil : findAllDemand [] = [] := rfl

theorem findAllDemand_cons_none (c : Char) (cs : List Char)
    (h : matchDemandAt (c :: cs) = none) :
    findAllDemand (c :: cs) = findAllDemand cs := by
  simp only [findAllDemand, List.length_cons, findAllDemandF, h]

theorem findAllDemand_match (l d i f r : List Char)
    (h : matchDemandAt l = some (d, i, f, r)) :
    findAllDemand l = (d, i, f) :: findAllDemand r := by
  cases l with
  | nil => rw [matchDemandAt_nil] at h; exact absurd h (by simp)
  | cons c cs =>
    have hr := matchDemandAt_length (c :: cs) d i f r h
    simp only [List.length_cons] at hr
    simp only [findAllDemand, List.length_cons, findAllDemandF, h]
    exact congrArg _ (findAllDemandF_fuel_irrelevant cs.length r.length r (by omega) le_rfl)

def scanBlocksF : Nat → List Char → List Char × List (List Char × List Char)
  | _, [] => ([], [])
  | 0, _ :: _ => ([], [])
  | fuel + 1, c :: cs =>
    match matchHeaderAt (c :: cs) with
    | some (o, r) =>
      let rec1 := scanBlocksF fuel r
      ([], (o, rec1.1) :: rec1.2)
    | none =>
      let rec1 := scanBlocksF fuel cs
      (c :: rec1.1, rec1.2)

/-- `re.split(header_pattern, data)` followed by dropping the leading chunk
and pairing: the preamble before the first origin header, and the list of
(captured origin digits, body up to the next header) pairs. -/
def scanBlocks (l : List Char) : List Char × List (List Char × List Char) :=
  scanBlocksF l.length l

theorem scanBlocksF_fuel_irrelevant :
    ∀ (m : Nat), ∀ (n : Nat) (l : List Char), l.length ≤ m → l.length ≤ n →
      scanBlocksF m l = scanBlocksF n l := by
  intro m
  induction m with
  | zero =>
    intro n l hm hn
    have : l = [] := List.length_eq_zero.mp (Nat.le_zero.mp hm)
    subst this
    cases n <;> rfl
  | succ m ih =>
    intro n l hm hn
    cases l with
    | nil => cases n <;> rfl
    | cons c cs =>
      cases n with
      | zero => simp at hn
      | succ n =>
        cases hmm : matchHeaderAt (c :: cs) with
        | none =>
          simp only [scanBlocksF, hmm]
          simp only [List.length_cons] at hm hn
          rw [ih n cs (by omega) (by omega)]
        | some v =>
          obtain ⟨o, r⟩ := v
          have hr := matchHeaderAt_length (c :: cs) o r hmm
          simp only [scanBlocksF, hmm]
          simp only [List.length_cons] at hm hn hr
          rw [ih n r (by omega) (by omega)]

theorem scanBlocks_nil : scanBlocks [] = ([], []) := rfl

theorem scanBlocks_cons_none (c : Char) (cs : List Char)
    (h : matchHeaderAt (c :: cs) = none) :
    scanBlocks (c :: cs) = (c :: (scanBlocks cs).1, (scanBlocks cs).2) := by
  simp only [scanBlocks, List.length_cons, scanBlocksF, h]

theorem scanBlocks_match (l o r : List Char)
    (h : matchHeaderAt l = some (o, r)) :
    scanBlocks l = ([], (o, (scanBlocks r).1) :: (scanBlocks r).2) := by
  cases l with
  | nil => rw [matchHeaderAt_nil] at h; exact absurd h (by simp)
  | cons c cs =>
    have hr := matchHeaderAt_length (c :: cs) o r h
    simp only [List.length_cons] at hr
    simp only [scanBlocks, List.length_cons, scanBlocksF, h]
    rw [scanBlocksF_fuel_irrelevant cs.length r.length r (by omega) le_rfl]

/-- Text with no `'O'` contains no origin header: the scan yields no blocks
and the whole text is the (discarded) preamble. -/
theorem scanBlocks_no_O (l : List Char) (h : 'O' ∉ l) : scanBlocks l = (l, []) := by
  induction l with
  | nil => rfl
  | cons c cs ih =>
    have hc : c ≠ 'O' := fun hh => h (hh ▸ List.mem_cons_self c cs)
    rw [scanBlocks_cons_none c cs (matchHeaderAt_none_of_head_ne_O c cs hc),
      ih (fun hh => h (List.mem_cons_of_mem c hh))]

/-! ## `read_demand_file` -/

/-- Python `int` on a captured digit string. -/
def digitsToNat (ds : List Char) : Nat :=
  ds.foldl (fun a c => 10 * a + (c.toNat - 48)) 0

/-- Python `float` on a captured `digits.digits` string, as an exact rational. -/
def decToRat (i f : List Char) : ℚ :=
  (digitsToNat i : ℚ) + (digitsToNat f : ℚ) / (10 : ℚ) ^ f.length

/-- The errors the pandas calls in `tntp.py` can raise (see the header
comment for the correspondence). -/
inductive TntpError where
  | duplicateKey
  | pivotDuplicate
  | keyError
  | emptyData
deriving DecidableEq

/-- The long-form `(orig, dest, demand)` rows accumulated by
`read_demand_file` before the pivot, after the `astype` coercions. -/
def demandTriples (data : List Char) : List (Nat × Nat × ℚ) :=
  ((scanBlocks data).2.map (fun ob =>
    (findAllDemand ob.2).map (fun e =>
      (digitsToNat ob.1, digitsToNat e.1, decToRat e.2.1 e.2.2)))).flatten

/-- The (origin, destination) key pairs of the long-form rows; `pivot`
fails if and only if these are not pairwise distinct. -/
def demandPairs (data : List Char) : List (Nat × Nat) :=
  (demandTriples data).map (fun t => (t.1, t.2.1))

/-- `read_demand_file` on the file *content* `data`.  The function never
raises before the final `df.pivot`: `re.split`/`re.findall` cannot fail,
the `astype` coercions always succeed on regex-captured digit strings, and
an input without any recognizable `Origin` header simply produces an empty
row list.  `pivot` raises (`ValueError`, modelled as `pivotDuplicate`) when
an (origin, destination) pair is duplicated; otherwise the resulting OD
matrix holds exactly the accumulated triples (origins as rows, destinations
as columns), which the returned list represents. -/
def read_demand_file (data : List Char) : Except TntpError (List (Nat × Nat × ℚ)) :=
  if (demandPairs data).Nodup then .ok (demandTriples data) else .error .pivotDuplicate

/-- Row labels of the pivoted OD matrix. -/
def odOrigins (m : List (Nat × Nat × ℚ)) : List Nat :=
  (m.map (fun t => t.1)).dedup

/-- Column labels of the pivoted OD matrix. -/
def odDests (m : List (Nat × Nat × ℚ)) : List Nat :=
  (m.map (fun t => t.2.1)).dedup

/-- Cell lookup in the pivoted OD matrix: `none` is a missing (NaN) cell. -/
def odLookup (m : List (Nat × Nat × ℚ)) (o d : Nat) : Option ℚ :=
  (m.find? (fun t => t.1 == o && t.2.1 == d)).map (fun t => t.2.2)

/-! ## Well-formed demand entries, rendered to text

`DEntry` describes one semicolon-terminated entry of an origin block as the
entry regex recognises it: leading whitespace separating it from what came
before, destination digits, whitespace, `':'`, whitespace, integer digits,
`'.'`, fraction digits, `';'`. -/

structure DEntry where
  lead : List Char
  dst : List Char
  ws1 : List Char
  ws2 : List Char
  ip : List Char
  fp : List Char

/-- The matched part of an entry (everything from the destination digits to
the terminating semicolon). -/
def DEntry.core (e : DEntry) : List Char :=
  e.dst ++ (e.ws1 ++ ':' :: (e.ws2 ++ (e.ip ++ '.' :: (e.fp ++ [';']))))

/-- The full rendered entry, including its leading separator. -/
def DEntry.render (e : DEntry) : List Char := e.lead ++ e.core

/-- Well-formedness: the digit groups are nonempty digit strings, the
whitespace slots hold only whitespace, and the leading separator is a
nonempty run of whitespace. -/
def DEntry.WF (e : DEntry) : Prop :=
  e.lead ≠ [] ∧ (∀ c ∈ e.lead, isPySpace c = true) ∧
  e.dst ≠ [] ∧ (∀ c ∈ e.dst, c.isDigit = true) ∧
  (∀ c ∈ e.ws1, isPySpace c = true) ∧ (∀ c ∈ e.ws2, isPySpace c = true) ∧
  e.ip ≠ [] ∧ (∀ c ∈ e.ip, c.isDigit = true) ∧
  e.fp ≠ [] ∧ (∀ c ∈ e.fp, c.isDigit = true)

instance (e : DEntry) : Decidable e.WF := by
  unfold DEntry.WF
  infer_instance

/-- A block body: the rendered entries, in order. -/
def renderEntries (es : List DEntry) : List Char :=
  (es.map DEntry.render).flatten

/-- A one-block demand file: `Origin`, whitespace, the origin digits, then
the body. -/
def renderDemandFile (o osp body : List Char) : List Char :=
  originLit ++ (osp ++ (o ++ body))

theorem matchDemandAt_core_append (e : DEntry) (rest : List Char) (h : e.WF) :
    matchDemandAt (e.core ++ rest) = some (e.dst, e.ip, e.fp, rest) := by
  obtain ⟨-, -, hdst, hdstd, hws1, hws2, hip, hipd, hfp, hfpd⟩ := h
  have hshape : e.core ++ rest =
      e.dst ++ (e.ws1 ++ ':' :: (e.ws2 ++ (e.ip ++ '.' :: (e.fp ++ ';' :: rest)))) := by
    simp [DEntry.core, List.append_assoc]
  rw [hshape]
  exact matchDemandAt_entry e.dst e.ws1 e.ws2 e.ip e.fp rest hdst hdstd hws1 hws2
    hip hipd hfp hfpd

theorem findAllDemand_append_nondigit (ws l : List Char)
    (h : ∀ c ∈ ws, c.isDigit = false) :
    findAllDemand (ws ++ l) = findAllDemand l := by
  induction ws with
  | nil => rfl
  | cons c cs ih =>
    rw [List.cons_append,
      findAllDemand_cons_none c (cs ++ l)
        (matchDemandAt_none_of_head_not_digit c (cs ++ l) (h c (List.mem_cons_self c cs))),
      ih (fun d hd => h d (List.mem_cons_of_mem c hd))]

/-- Text without a semicolon holds no entry at all. -/
theorem findAllDemand_no_semicolon (l : List Char) (h : ';' ∉ l) :
    findAllDemand l = [] := by
  induction l with
  | nil => rfl
  | cons c cs ih =>
    cases hm : matchDemandAt (c :: cs) with
    | some v =>
      obtain ⟨d, i, f, r⟩ := v
      exact absurd (matchDemandAt_semicolon_mem (c :: cs) d i f r hm) h
    | none =>
      rw [findAllDemand_cons_none c cs hm]
      exact ih (fun hh => h (List.mem_cons_of_mem c hh))

/-- Scanning a sequence of well-formed rendered entries followed by anything:
every entry is extracted, in order, and the scan continues on the tail. -/
theorem findAllDemand_renderEntries (es : List DEntry) (g : List Char)
    (h : ∀ e ∈ es, e.WF) :
    findAllDemand (renderEntries es ++ g) =
      es.map (fun e => (e.dst, e.ip, e.fp)) ++ findAllDemand g := by
  induction es with
  | nil => simp [renderEntries]
  | cons e es ih =>
    have he : e.WF := h e (List.mem_cons_self e es)
    have hleadsp := he.2.1
    have hshape : renderEntries (e :: es) ++ g =
        e.lead ++ (e.core ++ (renderEntries es ++ g)) := by
      simp [renderEntries, DEntry.render, List.append_assoc]
    rw [hshape,
      findAllDemand_append_nondigit e.lead _
        (fun c hc => isPySpace_not_digit c (hleadsp c hc)),
      findAllDemand_match _ e.dst e.ip e.fp _ (matchDemandAt_core_append e _ he),
      ih (fun d hd => h d (List.mem_cons_of_mem e hd))]
    simp

theorem DEntry.render_no_O (e : DEntry) (h : e.WF) : 'O' ∉ e.render := by
  obtain ⟨-, hleadsp, -, hdstd, hws1, hws2, -, hipd, -, hfpd⟩ := h
  intro hm
  simp only [DEntry.render, DEntry.core, List.mem_append, List.mem_cons,
    List.mem_singleton] at hm
  rcases hm with h1 | h2 | h3 | h4 | h5 | h6 | h7 | h8 | h9
  · exact ne_O_of_pyspace _ (hleadsp _ h1) rfl
  · exact ne_O_of_digit _ (hdstd _ h2) rfl
  · exact ne_O_of_pyspace _ (hws1 _ h3) rfl
  · exact absurd h4.symm (by decide)
  · exact ne_O_of_pyspace _ (hws2 _ h5) rfl
  · exact ne_O_of_digit _ (hipd _ h6) rfl
  · exact absurd h7.symm (by decide)
  · exact ne_O_of_digit _ (hfpd _ h8) rfl
  · exact absurd h9.symm (by decide)

theorem renderEntries_no_O (es : List DEntry) (h : ∀ e ∈ es, e.WF) :
    'O' ∉ renderEntries es := by
  intro hm
  simp only [renderEntries, List.mem_flatten, List.mem_map] at hm
  obtain ⟨l, ⟨e, he, hl⟩, hmem⟩ := hm
  exact DEntry.render_no_O e (h e he) (hl ▸ hmem)

theorem renderEntries_head_not_digit (es : List DEntry) (h : ∀ e ∈ es, e.WF) :
    ∀ c, (renderEntries es).head? = some c → c.isDigit = false := by
  intro c hc
  cases es with
  | nil => simp [renderEntries] at hc
  | cons e es =>
    have he : e.WF := h e (List.mem_cons_self e es)
    obtain ⟨hlead, hleadsp, -⟩ := he
    cases hl : e.lead with
    | nil => exact absurd hl hlead
    | cons w ws =>
      have : renderEntries (e :: es) = w :: (ws ++ e.core ++ renderEntries es) := by
        simp [renderEntries, DEntry.render, hl, List.append_assoc]
      rw [this] at hc
      simp only [List.head?_cons, Option.some.injEq] at hc
      subst hc
      exact isPySpace_not_digit w (hleadsp w (by rw [hl]; exact List.mem_cons_self w ws))

/-- Scanning a one-block rendered demand file: one block, whose body is
everything after the origin digits. -/
theorem scanBlocks_renderDemandFile (o osp body : List Char)
    (ho : o ≠ []) (hod : ∀ c ∈ o, c.isDigit = true)
    (hosp : osp ≠ []) (hsp : ∀ c ∈ osp, isPySpace c = true)
    (hbody1 : ∀ c, body.head? = some c → c.isDigit = false)
    (hbodyO : 'O' ∉ body) :
    scanBlocks (renderDemandFile o osp body) = ([], [(o, body)]) := by
  rw [renderDemandFile,
    scanBlocks_match _ o body (matchHeaderAt_header osp o body hosp hsp ho hod hbody1),
    scanBlocks_no_O body hbodyO]

theorem renderEntries_cons_append_head_not_digit (e : DEntry) (es : List DEntry)
    (g : List Char) (he : e.WF) :
    ∀ c, (renderEntries (e :: es) ++ g).head? = some c → c.isDigit = false := by
  intro c hc
  have hlead := he.1
  have hleadsp := he.2.1
  cases hl : e.lead with
  | nil => exact absurd hl hlead
  | cons w ws =>
    have hshape : renderEntries (e :: es) ++ g =
        w :: (ws ++ (e.core ++ (renderEntries es ++ g))) := by
      simp [renderEntries, DEntry.render, hl, List.append_assoc]
    rw [hshape] at hc
    simp only [List.head?_cons, Option.some.injEq] at hc
    subst hc
    exact isPySpace_not_digit w (hleadsp w (by rw [hl]; exact List.mem_cons_self w ws))

/-- The master lemma for one-block rendered demand files: a block of
well-formed entries followed by trailing text `g` that contains no `';'`
(so no further entry can match) and no `'O'` (so no further header can
match) parses to exactly the triples of the well-formed entries. -/
theorem read_demand_file_render (o osp : List Char) (es : List DEntry) (g : List Char)
    (ho : o ≠ []) (hod : ∀ c ∈ o, c.isDigit = true)
    (hosp : osp ≠ []) (hsp : ∀ c ∈ osp, isPySpace c = true)
    (hes : ∀ e ∈ es, e.WF)
    (hg1 : ';' ∉ g) (hgO : 'O' ∉ g)
    (hbhead : ∀ c, (renderEntries es ++ g).head? = some c → c.isDigit = false)
    (hnd : (es.map (fun e => (digitsToNat o, digitsToNat e.dst))).Nodup) :
    read_demand_file (renderDemandFile o osp (renderEntries es ++ g)) =
      .ok (es.map (fun e => (digitsToNat o, digitsToNat e.dst, decToRat e.ip e.fp))) := by
  have hbO : 'O' ∉ renderEntries es ++ g := by
    intro hm
    rcases List.mem_append.mp hm with hm | hm
    · exact renderEntries_no_O es hes hm
    · exact hgO hm
  have hscan := scanBlocks_renderDemandFile o osp _ ho hod hosp hsp hbhead hbO
  have htrip : demandTriples (renderDemandFile o osp (renderEntries es ++ g)) =
      es.map (fun e => (digitsToNat o, digitsToNat e.dst, decToRat e.ip e.fp)) := by
    rw [demandTriples, hscan]
    simp only [List.map_cons, List.map_nil, List.flatten_cons, List.flatten_nil,
      List.append_nil, findAllDemand_renderEntries es g hes,
      findAllDemand_no_semicolon g hg1, List.map_append, List.map_map]
    simp [Function.comp]
  have hpairs : demandPairs (renderDemandFile o osp (renderEntries es ++ g)) =
      es.map (fun e => (digitsToNat o, digitsToNat e.dst)) := by
    rw [demandPairs, htrip, List.map_map]
    simp [Function.comp]
  rw [read_demand_file, hpairs, if_pos hnd, htrip]

/-! ## Claims about `read_demand_file` -/

/-- C10: for every demand file in which the same (origin, destination) pair
occurs in more than one well-formed entry, `read_demand_file` fails at the
final pivot step (`DataFrame.pivot` raises on duplicated index/column
pairs) instead of merging, summing, or keeping one of the values. -/
theorem read_demand_file_duplicate_pair_error (data : List Char)
    (h : ¬ (demandPairs data).Nodup) :
    read_demand_file data = .error .pivotDuplicate := by
  rw [read_demand_file, if_neg h]

theorem read_demand_file_duplicate_pair_error_witness :
    read_demand_file (tok "Origin 1\n2 : 5.0; 2 : 6.0;\n") = .error .pivotDuplicate :=
  read_demand_file_duplicate_pair_error (tok "Origin 1\n2 : 5.0; 2 : 6.0;\n")
    (by with_unfolding_all decide)

/-- C2 counterexample: a demand file with zero recognizable `Origin`
headers does not raise any error — `re.split` returns a single chunk, the
row list stays empty, and the pivot of the empty frame is returned as an
empty matrix.  (The code has no `DemandParseError` at all.) -/
theorem read_demand_file_no_header_counterexample :
    read_demand_file (tok "metadata only, no header here\n") = .ok [] := by
  with_unfolding_all rfl

/-- C2 (amended): `read_demand_file` does not fail when no origin blocks
are found — it returns an empty matrix — and on any input the only
possible failure is the duplicate-pair pivot error: partial or garbage
content degrades into missing entries, never into a parse exception. -/
theorem read_demand_file_lenient :
    (∀ data : List Char, (scanBlocks data).2 = [] → read_demand_file data = .ok []) ∧
    (∀ data : List Char, read_demand_file data = .ok (demandTriples data) ∨
      read_demand_file data = .error .pivotDuplicate) := by
  constructor
  · intro data h
    have ht : demandTriples data = [] := by
      rw [demandTriples, h]
      rfl
    rw [read_demand_file, demandPairs, ht]
    simp
  · intro data
    by_cases h : (demandPairs data).Nodup
    · exact Or.inl (by rw [read_demand_file, if_pos h])
    · exact Or.inr (by rw [read_demand_file, if_neg h])

theorem read_demand_file_lenient_witness :
    read_demand_file (tok "a file with no origin blocks at all") = .ok [] :=
  read_demand_file_lenient.1 (tok "a file with no origin blocks at all")
    (by with_unfolding_all rfl)

/-- C3 counterexample: the integer-valued entry `3 : 10;` inside the block
of `Origin 1` is *not* extracted — the demand group of the entry regex is
`(\d+(?:\.\d+))`, whose fractional part is mandatory — so the resulting
matrix is empty rather than containing the triple (1, 3, 10). -/
theorem read_demand_file_integer_demand_counterexample :
    read_demand_file (tok "Origin 1\n3 : 10;\n") = .ok [] := by
  with_unfolding_all rfl

/-- C3 (amended): within an origin block `read_demand_file` extracts every
semicolon-terminated entry of the form `<dest-id> : <demand-value>;` whose
demand value is a non-negative decimal **with a mandatory fractional part**
(`digits.digits`, the `';'` immediately following), with arbitrary
whitespace around the colon; for every such well-formed entry the (origin,
destination, demand) triple appears in the resulting matrix.
Integer-valued demands such as `3 : 10;` do not match and are skipped. -/
theorem read_demand_file_extracts_wf_entries (o osp : List Char) (es : List DEntry)
    (ho : o ≠ []) (hod : ∀ c ∈ o, c.isDigit = true)
    (hosp : osp ≠ []) (hsp : ∀ c ∈ osp, isPySpace c = true)
    (hes : ∀ e ∈ es, e.WF)
    (hnd : (es.map (fun e => (digitsToNat o, digitsToNat e.dst))).Nodup) :
    read_demand_file (renderDemandFile o osp (renderEntries es)) =
      .ok (es.map (fun e => (digitsToNat o, digitsToNat e.dst, decToRat e.ip e.fp))) := by
  have hbhead : ∀ c, (renderEntries es ++ ([] : List Char)).head? = some c →
      c.isDigit = false := by
    cases es with
    | nil => intro c hc; simp [renderEntries] at hc
    | cons e es' =>
      exact renderEntries_cons_append_head_not_digit e es' []
        (hes e (List.mem_cons_self e es'))
  have h := read_demand_file_render o osp es [] ho hod hosp hsp hes
    (by simp) (by simp) hbhead hnd
  rwa [List.append_nil] at h

theorem read_demand_file_extracts_wf_entries_witness :
    read_demand_file (renderDemandFile (tok "1") (tok " ")
        (renderEntries [⟨tok "\n", tok "2", tok " ", tok " ", tok "5", tok "0"⟩,
          ⟨tok " ", tok "3", tok "", tok "", tok "10", tok "25"⟩])) =
      .ok [(1, 2, 5), (1, 3, (41 : ℚ) / 4)] := by
  have h := read_demand_file_extracts_wf_entries (tok "1") (tok " ")
    [⟨tok "\n", tok "2", tok " ", tok " ", tok "5", tok "0"⟩,
      ⟨tok " ", tok "3", tok "", tok "", tok "10", tok "25"⟩]
    (by decide) (by decide) (by decide) (by decide)
    (by intro e he; fin_cases he <;> decide)
    (by with_unfolding_all decide)
  rw [h]
  with_unfolding_all rfl

/-- C7: a demand file whose block contains one well-formed entry followed
by malformed text (no `';'`, so no entry can terminate — e.g. an entry
missing its semicolon — and no `'O'`, so no new header starts) yields
exactly the well-formed entry and raises nothing: malformed entries are
silently skipped, never fatal. -/
theorem read_demand_file_skips_malformed (o osp : List Char) (e : DEntry) (g : List Char)
    (ho : o ≠ []) (hod : ∀ c ∈ o, c.isDigit = true)
    (hosp : osp ≠ []) (hsp : ∀ c ∈ osp, isPySpace c = true)
    (he : e.WF) (hg1 : ';' ∉ g) (hgO : 'O' ∉ g) :
    read_demand_file (renderDemandFile o osp (renderEntries [e] ++ g)) =
      .ok [(digitsToNat o, digitsToNat e.dst, decToRat e.ip e.fp)] := by
  have h := read_demand_file_render o osp [e] g ho hod hosp hsp
    (by intro x hx; rw [List.mem_singleton] at hx; rwa [hx])
    hg1 hgO
    (renderEntries_cons_append_head_not_digit e [] g he)
    (by simp)
  simpa using h

theorem read_demand_file_skips_malformed_witness :
    read_demand_file (renderDemandFile (tok "1") (tok " ")
        (renderEntries [⟨tok "\n", tok "2", tok " ", tok " ", tok "5", tok "0"⟩] ++
          tok "\n3 : 10.5")) = .ok [(1, 2, 5)] := by
  have h := read_demand_file_skips_malformed (tok "1") (tok " ")
    ⟨tok "\n", tok "2", tok " ", tok " ", tok "5", tok "0"⟩ (tok "\n3 : 10.5")
    (by decide) (by decide) (by decide) (by decide) (by decide)
    (by decide) (by decide)
  rw [h]
  with_unfolding_all rfl

/-- C6: the round-trip example — the demand file consisting of the single
block `Origin 1` with entries `2 : 5.0; 3 : 10.0;` parses to a matrix with
exactly row 1 and columns 2 and 3 holding 5.0 and 10.0, and every other
(origin, destination) cell is absent. -/
theorem read_demand_file_roundtrip_example :
    read_demand_file (tok "Origin 1\n2 : 5.0; 3 : 10.0;\n") =
      .ok [(1, 2, 5), (1, 3, 10)] ∧
    odOrigins [(1, 2, 5), (1, 3, 10)] = [1] ∧
    odDests [(1, 2, 5), (1, 3, 10)] = [2, 3] ∧
    ∀ o d : Nat, odLookup [(1, 2, 5), (1, 3, 10)] o d =
      if o = 1 ∧ d = 2 then some 5 else if o = 1 ∧ d = 3 then some 10 else none := by
  refine ⟨by with_unfolding_all rfl, by decide, by decide, ?_⟩
  intro o d
  by_cases h1 : o = 1
  · subst h1
    by_cases h2 : d = 2
    · subst h2; decide
    · by_cases h3 : d = 3
      · subst h3; decide
      · rw [if_neg (fun hp => h2 hp.2), if_neg (fun hp => h3 hp.2)]
        have e2 : ((2 : Nat) == d) = false :=
          beq_eq_false_iff_ne.mpr (fun hh => h2 hh.symm)
        have e3 : ((3 : Nat) == d) = false :=
          beq_eq_false_iff_ne.mpr (fun hh => h3 hh.symm)
        simp [odLookup, List.find?, e2, e3]
  · rw [if_neg (fun hp => h1 hp.1), if_neg (fun hp => h1 hp.1)]
    have e1 : ((1 : Nat) == o) = false :=
      beq_eq_false_iff_ne.mpr (fun hh => h1 hh.symm)
    simp [odLookup, List.find?, e1]

/-! ## The tabular readers `read_net_file`, `read_flow_file`, `read_node_file`

A file is a list of lines.  `read_csv_tsv` models
`pd.read_csv(path, sep="\t", skiprows=...)`: it drops the skipped lines,
splits the first remaining line into the column names and every further
line into a row of cells, and raises `EmptyDataError` when nothing is
left.  `renameStrip` models `df.rename(columns={name: name.strip()})`,
`dropCols` models `df.drop([...], axis=1)` (all labels must exist, else
`KeyError`; every occurrence of a dropped label is removed),
`set_index_verify` models `df.set_index([...], verify_integrity=True)`
(missing label: `KeyError`; duplicated composite key: the `ValueError`
modelled as `duplicateKey`), and `addKeyCol` models the
`if k_col is None: df["key"] = 0` default. -/

def splitTab : List Char → List (List Char)
  | [] => [[]]
  | c :: cs =>
    if c = '\t' then [] :: splitTab cs
    else
      match splitTab cs with
      | [] => [[c]]
      | t :: ts => (c :: t) :: ts

/-- Python `str.strip()`. -/
def pyStrip (s : List Char) : List Char :=
  ((s.dropWhile isPySpace).reverse.dropWhile isPySpace).reverse

def tildeTok : Tok := tok "~"
def semiTok : Tok := tok ";"
def keyTok : Tok := tok "key"
def zeroTok : Tok := tok "0"
def geometryTok : Tok := tok "geometry"
def noneTok : Tok := tok "None"
def xTok : Tok := tok "x"
def yTok : Tok := tok "y"

structure DFrame where
  cols : List Tok
  rows : List (List Tok)
deriving DecidableEq

structure IxDFrame where
  ixNames : List Tok
  index : List (List Tok)
  cols : List Tok
  rows : List (List Tok)
deriving DecidableEq

def read_csv_tsv (skip : Nat) (lines : List Tok) : Except TntpError DFrame :=
  match lines.drop skip with
  | [] => .error .emptyData
  | h :: rest => .ok ⟨splitTab h, rest.map splitTab⟩

def renameStrip (df : DFrame) : DFrame := ⟨df.cols.map pyStrip, df.rows⟩

def dropCols (names : List Tok) (df : DFrame) : Except TntpError DFrame :=
  if names.all (fun n => df.cols.contains n) then
    .ok ⟨df.cols.filter (fun c => !(names.contains c)),
         df.rows.map (fun r =>
           ((df.cols.zip r).filter (fun p => !(names.contains p.1))).map Prod.snd)⟩
  else .error .keyError

def addKeyCol (k : Option Tok) (df : DFrame) : DFrame × Tok :=
  match k with
  | some kn => (df, kn)
  | none => (⟨df.cols ++ [keyTok], df.rows.map (fun r => r ++ [zeroTok])⟩, keyTok)

/-- The composite key of one row: for each index name, the cell of the
first column carrying that name. -/
def rowKey (names cols row : List Tok) : List Tok :=
  names.map (fun n => (((cols.zip row).find? (fun p => p.1 == n)).map Prod.snd).getD [])

/-- The non-index cells of one row. -/
def rowRest (names cols row : List Tok) : List Tok :=
  ((cols.zip row).filter (fun p => !(names.contains p.1))).map Prod.snd

/-- The composite keys `set_index` would build, when all the index labels
exist. -/
def set_index_keys (df : DFrame) (names : List Tok) : Option (List (List Tok)) :=
  if names.all (fun n => df.cols.contains n) then
    some (df.rows.map (rowKey names df.cols))
  else none

/-- `df.set_index(names, verify_integrity=True)`. -/
def set_index_verify (df : DFrame) (names : List Tok) : Except TntpError IxDFrame :=
  match set_index_keys df names with
  | none => .error .keyError
  | some keys =>
    if keys.Nodup then
      .ok ⟨names, keys, df.cols.filter (fun c => !(names.contains c)),
           df.rows.map (rowRest names df.cols)⟩
    else .error .duplicateKey

/-- `df["geometry"] = None`. -/
def addGeomCol (ix : IxDFrame) : IxDFrame :=
  ⟨ix.ixNames, ix.index, ix.cols ++ [geometryTok], ix.rows.map (fun r => r ++ [noneTok])⟩

/-- `read_net_file` before `set_index`: skip exactly 8 metadata lines, read
the tab-separated table, strip the column names, drop the `'~'` and `';'`
sentinel columns, and default the key column. -/
def net_stage (lines : List Tok) (k : Option Tok) : Except TntpError (DFrame × Tok) :=
  match read_csv_tsv 8 lines with
  | .error e => .error e
  | .ok df0 =>
    match dropCols [tildeTok, semiTok] (renameStrip df0) with
    | .error e => .error e
    | .ok df2 => .ok (addKeyCol k df2)

def read_net_file (lines : List Tok) (u v : Tok) (k : Option Tok) :
    Except TntpError IxDFrame :=
  match net_stage lines k with
  | .error e => .error e
  | .ok dfk =>
    match set_index_verify dfk.1 [u, v, dfk.2] with
    | .error e => .error e
    | .ok ix => .ok (addGeomCol ix)

/-- `read_flow_file` before `set_index`: no metadata skip, no sentinel
columns, same strip and key default. -/
def flow_stage (lines : List Tok) (k : Option Tok) : Except TntpError (DFrame × Tok) :=
  match read_csv_tsv 0 lines with
  | .error e => .error e
  | .ok df0 => .ok (addKeyCol k (renameStrip df0))

def read_flow_file (lines : List Tok) (u v : Tok) (k : Option Tok) :
    Except TntpError IxDFrame :=
  match flow_stage lines k with
  | .error e => .error e
  | .ok dfk => set_index_verify dfk.1 [u, v, dfk.2]

/-! ## `read_node_file`

`pd.read_csv(path, sep="\t", index_col=index_col)` sets the named column
as the index **without any uniqueness check** (there is no
`verify_integrity` anywhere in `read_node_file`), then the remaining
column names are stripped, the `';'` sentinel column is dropped, and the
point geometry is built from the x/y columns.  The node table is modelled
column-wise; `toColumns` transposes the parsed rows. -/

def toColumns : List Tok → List (List Tok) → List (Tok × List Tok)
  | [], _ => []
  | n :: ns, rows => (n, rows.map (fun r => r.headD [])) :: toColumns ns (rows.map List.tail)

structure NodeFrame where
  ixName : Tok
  index : List Tok
  columns : List (Tok × List Tok)
  geom : List (Tok × Tok)
deriving DecidableEq

def read_node_file (lines : List Tok) (index_col x_col y_col : Tok) :
    Except TntpError NodeFrame :=
  match lines with
  | [] => .error .emptyData
  | h :: rest =>
    let columns0 := toColumns (splitTab h) (rest.map splitTab)
    match columns0.find? (fun c => c.1 == index_col) with
    | none => .error .keyError
    | some ixc =>
      let columns1 := (columns0.filter (fun c => !(c.1 == index_col))).map
        (fun c => (pyStrip c.1, c.2))
      if columns1.any (fun c => c.1 == semiTok) then
        let columns2 := columns1.filter (fun c => !(c.1 == semiTok))
        match columns2.find? (fun c => c.1 == x_col),
            columns2.find? (fun c => c.1 == y_col) with
        | some xc, some yc => .ok ⟨index_col, ixc.2, columns2, xc.2.zip yc.2⟩
        | some _, none => .error .keyError
        | none, _ => .error .keyError
      else .error .keyError

/-! ## Shared facts about `set_index` and the reader stages -/

theorem set_index_keys_some (df : DFrame) (names : List Tok) (keys : List (List Tok))
    (h : set_index_keys df names = some keys) :
    names.all (fun n => df.cols.contains n) = true ∧
    keys = df.rows.map (rowKey names df.cols) := by
  rw [set_index_keys] at h
  split at h
  · rename_i hall
    exact ⟨hall, (Option.some.inj h).symm⟩
  · exact absurd h (by simp)

theorem set_index_verify_of_keys (df : DFrame) (names : List Tok) (keys : List (List Tok))
    (hk : set_index_keys df names = some keys) :
    (keys.Nodup → set_index_verify df names =
      .ok ⟨names, keys, df.cols.filter (fun c => !(names.contains c)),
           df.rows.map (rowRest names df.cols)⟩) ∧
    (¬ keys.Nodup → set_index_verify df names = .error .duplicateKey) := by
  constructor
  · intro hnd
    rw [set_index_verify, hk]
    exact if_pos hnd
  · intro hnd
    rw [set_index_verify, hk]
    exact if_neg hnd

theorem set_index_verify_ok (df : DFrame) (names : List Tok) (ix : IxDFrame)
    (h : set_index_verify df names = .ok ix) :
    ix.ixNames = names ∧ ix.index.Nodup ∧
    ix.cols = df.cols.filter (fun c => !(names.contains c)) ∧
    names.all (fun n => df.cols.contains n) = true := by
  rw [set_index_verify] at h
  cases hk : set_index_keys df names with
  | none => rw [hk] at h; exact absurd h (by simp)
  | some keys =>
    rw [hk] at h
    replace h : (if keys.Nodup then
        Except.ok (ε := TntpError)
          (IxDFrame.mk names keys (df.cols.filter (fun c => !(names.contains c)))
            (df.rows.map (rowRest names df.cols)))
      else .error .duplicateKey) = .ok ix := h
    by_cases hnd : keys.Nodup
    · rw [if_pos hnd] at h
      have hx := Except.ok.inj h
      subst hx
      exact ⟨rfl, hnd, rfl, (set_index_keys_some df names keys hk).1⟩
    · rw [if_neg hnd] at h
      exact absurd h (by simp)

theorem dropCols_ok (names : List Tok) (df df2 : DFrame)
    (h : dropCols names df = .ok df2) :
    df2.cols = df.cols.filter (fun c => !(names.contains c)) := by
  rw [dropCols] at h
  split at h
  · have hx := Except.ok.inj h
    subst hx
    rfl
  · exact absurd h (by simp)

theorem not_mem_filter_contains (names l : List Tok) (n : Tok) (hn : n ∈ names) :
    n ∉ l.filter (fun c => !(names.contains c)) := by
  intro hm
  have h2 := (List.mem_filter.mp hm).2
  rw [Bool.not_eq_true'] at h2
  have h3 := List.elem_eq_true_of_mem hn
  rw [List.contains] at h2
  rw [h3] at h2
  exact Bool.noConfusion h2

/-- Everything `net_stage` can return: the sentinel columns are gone and
the key column name is either the one supplied by the caller or the default key column. -/
theorem net_stage_ok (lines : List Tok) (k : Option Tok) (df : DFrame) (kn : Tok)
    (h : net_stage lines k = .ok (df, kn)) :
    tildeTok ∉ df.cols ∧ semiTok ∉ df.cols := by
  rw [net_stage] at h
  split at h
  · exact absurd h (by simp)
  · split at h
    · exact absurd h (by simp)
    · rename_i df0 heq0 df2 heq1
      have hcols := dropCols_ok _ _ _ heq1
      have htilde : tildeTok ∉ df2.cols := by
        rw [hcols]
        exact not_mem_filter_contains _ _ _ (by simp)
      have hsemi : semiTok ∉ df2.cols := by
        rw [hcols]
        exact not_mem_filter_contains _ _ _ (by simp)
      have hpair := Except.ok.inj h
      cases k with
      | some kc =>
        simp only [addKeyCol, Prod.mk.injEq] at hpair
        obtain ⟨hdf, -⟩ := hpair
        subst hdf
        exact ⟨htilde, hsemi⟩
      | none =>
        simp only [addKeyCol, Prod.mk.injEq] at hpair
        obtain ⟨hdf, -⟩ := hpair
        subst hdf
        constructor
        · intro hm
          rcases List.mem_append.mp hm with hm | hm
          · exact htilde hm
          · rw [List.mem_singleton] at hm
            exact absurd hm (by decide)
        · intro hm
          rcases List.mem_append.mp hm with hm | hm
          · exact hsemi hm
          · rw [List.mem_singleton] at hm
            exact absurd hm (by decide)

/-! ## Claims about the tabular readers -/

/-- The node-id column of a node file as `read_csv` resolves it: the cell
list of the first header column named `index_col`. -/
def nodeIdCells (lines : List Tok) (index_col : Tok) : Option (List Tok) :=
  match lines with
  | [] => none
  | h :: rest =>
    ((toColumns (splitTab h) (rest.map splitTab)).find?
      (fun c => c.1 == index_col)).map (fun c => c.2)

/-- C1 (amended): `read_node_file` performs no uniqueness check on the
node-id column — it can never fail with the duplicate-key error, and
whenever it succeeds the returned index is exactly the node-id column of
the file, repeated values preserved (so a file with a duplicated node id
is read without error and its duplicates survive in the index; the index
is duplicate-free only when the input column is). -/
theorem read_node_file_no_uniqueness_check :
    (∀ (lines : List Tok) (ic x y : Tok),
      read_node_file lines ic x y ≠ .error .duplicateKey) ∧
    (∀ (lines : List Tok) (ic x y : Tok) (nf : NodeFrame),
      read_node_file lines ic x y = .ok nf → nodeIdCells lines ic = some nf.index) := by
  constructor
  · intro lines ic x y hcontra
    cases lines with
    | nil => simp [read_node_file] at hcontra
    | cons h rest =>
      simp only [read_node_file] at hcontra
      split at hcontra
      · simp at hcontra
      · split at hcontra
        · split at hcontra
          · simp at hcontra
          · simp at hcontra
          · simp at hcontra
        · simp at hcontra
  · intro lines ic x y nf hok
    cases lines with
    | nil => simp [read_node_file] at hok
    | cons h rest =>
      simp only [read_node_file] at hok
      split at hok
      · simp at hok
      · rename_i ixc hfind
        split at hok
        · split at hok
          · rename_i xc yc hx hy
            have hnf := Except.ok.inj hok
            subst hnf
            rw [nodeIdCells, hfind]
            rfl
          · simp at hok
          · simp at hok
        · simp at hok

theorem read_node_file_no_uniqueness_check_witness :
    nodeIdCells [tok "node\tx\ty\t;", tok "1\t0.5\t1.5\t0", tok "2\t2.5\t3.5\t0"]
      (tok "node") = some [tok "1", tok "2"] :=
  read_node_file_no_uniqueness_check.2
    [tok "node\tx\ty\t;", tok "1\t0.5\t1.5\t0", tok "2\t2.5\t3.5\t0"]
    (tok "node") (tok "x") (tok "y")
    ⟨tok "node", [tok "1", tok "2"],
     [(tok "x", [tok "0.5", tok "2.5"]), (tok "y", [tok "1.5", tok "3.5"])],
     [(tok "0.5", tok "1.5"), (tok "2.5", tok "3.5")]⟩
    (by with_unfolding_all rfl)

/-- C1 counterexample: a node file whose node-id column repeats the id `1`
is read **successfully** — no `DuplicateKeyError` — and the returned index
contains the repeated value. -/
theorem read_node_file_duplicate_id_counterexample :
    (read_node_file [tok "node\tx\ty\t;", tok "1\t0.5\t1.5\t0", tok "1\t2.5\t3.5\t0"]
        (tok "node") (tok "x") (tok "y")).toOption.map NodeFrame.index =
      some [tok "1", tok "1"] ∧
    ¬ ([tok "1", tok "1"] : List Tok).Nodup :=
  ⟨by with_unfolding_all rfl, by decide⟩

/-- C4: a duplicated composite (from, to, key) triple makes `read_net_file`
and `read_flow_file` fail with the duplicate-key error at
index-construction time (`set_index(..., verify_integrity=True)`); a
successful read always returns the composite keys exactly as built from
the file — duplicate-free, never silently deduplicated. -/
theorem composite_key_uniqueness :
    (∀ (df : DFrame) (names : List Tok) (keys : List (List Tok)),
      set_index_keys df names = some keys →
        (keys.Nodup → ∃ ix, set_index_verify df names = .ok ix ∧ ix.index = keys ∧
          ix.index.Nodup) ∧
        (¬ keys.Nodup → set_index_verify df names = .error .duplicateKey)) ∧
    (∀ (lines : List Tok) (u v : Tok) (k : Option Tok) (df : DFrame) (kn : Tok)
        (keys : List (List Tok)), net_stage lines k = .ok (df, kn) →
      set_index_keys df [u, v, kn] = some keys → ¬ keys.Nodup →
      read_net_file lines u v k = .error .duplicateKey) ∧
    (∀ (lines : List Tok) (u v : Tok) (k : Option Tok) (df : DFrame) (kn : Tok)
        (keys : List (List Tok)), flow_stage lines k = .ok (df, kn) →
      set_index_keys df [u, v, kn] = some keys → ¬ keys.Nodup →
      read_flow_file lines u v k = .error .duplicateKey) ∧
    (∀ (lines : List Tok) (u v : Tok) (k : Option Tok) (ix : IxDFrame),
      read_net_file lines u v k = .ok ix → ix.index.Nodup) ∧
    (∀ (lines : List Tok) (u v : Tok) (k : Option Tok) (ix : IxDFrame),
      read_flow_file lines u v k = .ok ix → ix.index.Nodup) := by
  refine ⟨?_, ?_, ?_, ?_, ?_⟩
  · intro df names keys hk
    exact ⟨fun hnd => ⟨_, (set_index_verify_of_keys df names keys hk).1 hnd, rfl, hnd⟩,
      (set_index_verify_of_keys df names keys hk).2⟩
  · intro lines u v k df kn keys hstage hkeys hnd
    have hver := (set_index_verify_of_keys df [u, v, kn] keys hkeys).2 hnd
    simp only [read_net_file, hstage, hver]
  · intro lines u v k df kn keys hstage hkeys hnd
    have hver := (set_index_verify_of_keys df [u, v, kn] keys hkeys).2 hnd
    simp only [read_flow_file, hstage, hver]
  · intro lines u v k ix h
    simp only [read_net_file] at h
    split at h
    · simp at h
    · split at h
      · simp at h
      · rename_i dfk heq ix0 heq2
        have hx := Except.ok.inj h
        subst hx
        exact (set_index_verify_ok _ _ _ heq2).2.1
  · intro lines u v k ix h
    simp only [read_flow_file] at h
    split at h
    · simp at h
    · exact (set_index_verify_ok _ _ _ h).2.1

theorem composite_key_uniqueness_witness :
    read_net_file
      [tok "m1", tok "m2", tok "m3", tok "m4", tok "m5", tok "m6", tok "m7", tok "m8",
       tok "~\tinit_node\tterm_node\tcapacity\t;",
       tok "0\t1\t2\t100\t0", tok "0\t1\t2\t200\t0"]
      (tok "init_node") (tok "term_node") none = .error .duplicateKey ∧
    read_flow_file
      [tok "init_node\tterm_node\tvolume", tok "1\t2\t5", tok "1\t2\t7"]
      (tok "init_node") (tok "term_node") none = .error .duplicateKey := by
  constructor
  · exact composite_key_uniqueness.2.1
      [tok "m1", tok "m2", tok "m3", tok "m4", tok "m5", tok "m6", tok "m7", tok "m8",
       tok "~\tinit_node\tterm_node\tcapacity\t;",
       tok "0\t1\t2\t100\t0", tok "0\t1\t2\t200\t0"]
      (tok "init_node") (tok "term_node") none
      ⟨[tok "init_node", tok "term_node", tok "capacity", tok "key"],
       [[tok "1", tok "2", tok "100", tok "0"], [tok "1", tok "2", tok "200", tok "0"]]⟩
      (tok "key")
      [[tok "1", tok "2", tok "0"], [tok "1", tok "2", tok "0"]]
      (by with_unfolding_all rfl) (by with_unfolding_all rfl)
      (by with_unfolding_all decide)
  · exact composite_key_uniqueness.2.2.1
      [tok "init_node\tterm_node\tvolume", tok "1\t2\t5", tok "1\t2\t7"]
      (tok "init_node") (tok "term_node") none
      ⟨[tok "init_node", tok "term_node", tok "volume", tok "key"],
       [[tok "1", tok "2", tok "5", tok "0"], [tok "1", tok "2", tok "7", tok "0"]]⟩
      (tok "key")
      [[tok "1", tok "2", tok "0"], [tok "1", tok "2", tok "0"]]
      (by with_unfolding_all rfl) (by with_unfolding_all rfl)
      (by with_unfolding_all decide)

/-- C8: `read_net_file` skips exactly 8 metadata lines — a structural
constant, not a parameter: any two files agreeing after their first 8
lines parse identically — and it drops the leading `'~'` marker column and
the trailing `';'` terminator column: neither of the two sentinels appears
among the returned columns or index level names. -/
theorem read_net_file_metadata_and_sentinels :
    (∀ (meta1 meta2 rest : List Tok) (u v : Tok) (k : Option Tok),
      meta1.length = 8 → meta2.length = 8 →
      read_net_file (meta1 ++ rest) u v k = read_net_file (meta2 ++ rest) u v k) ∧
    (∀ (lines : List Tok) (u v : Tok) (k : Option Tok) (ix : IxDFrame),
      read_net_file lines u v k = .ok ix →
      tildeTok ∉ ix.cols ∧ semiTok ∉ ix.cols ∧
      tildeTok ∉ ix.ixNames ∧ semiTok ∉ ix.ixNames) := by
  constructor
  · intro meta1 meta2 rest u v k h1 h2
    have e : ∀ m : List Tok, m.length = 8 → (m ++ rest).drop 8 = rest := by
      intro m hm
      rw [← hm, List.drop_left]
    simp only [read_net_file, net_stage, read_csv_tsv, e meta1 h1, e meta2 h2]
  · intro lines u v k ix h
    simp only [read_net_file] at h
    split at h
    · simp at h
    · split at h
      · simp at h
      · rename_i x1 dfk heqstage x2 ix0 heq2
        have hx := Except.ok.inj h
        subst hx
        obtain ⟨htilde, hsemi⟩ := net_stage_ok lines k dfk.1 dfk.2
          (by rw [Prod.mk.eta]; exact heqstage)
        obtain ⟨hnames, -, hcols, hall⟩ := set_index_verify_ok dfk.1 [u, v, dfk.2] ix0 heq2
        have hmemnames : ∀ n ∈ ix0.ixNames, n ∈ dfk.1.cols := by
          intro n hn
          rw [hnames] at hn
          have := List.all_eq_true.mp hall n hn
          exact List.mem_of_elem_eq_true this
        have hmemcols : ∀ n ∈ ix0.cols, n ∈ dfk.1.cols := by
          intro n hn
          rw [hcols] at hn
          exact List.mem_of_mem_filter hn
        refine ⟨?_, ?_, ?_, ?_⟩
        · intro hm
          rcases List.mem_append.mp hm with hm | hm
          · exact htilde (hmemcols _ hm)
          · rw [List.mem_singleton] at hm
            exact absurd hm (by decide)
        · intro hm
          rcases List.mem_append.mp hm with hm | hm
          · exact hsemi (hmemcols _ hm)
          · rw [List.mem_singleton] at hm
            exact absurd hm (by decide)
        · exact fun hm => htilde (hmemnames _ hm)
        · exact fun hm => hsemi (hmemnames _ hm)

theorem read_net_file_metadata_and_sentinels_witness :
    read_net_file
      ([tok "m1", tok "m2", tok "m3", tok "m4", tok "m5", tok "m6", tok "m7", tok "m8"] ++
       [tok "~\tinit_node\tterm_node\tcapacity\t;", tok "0\t1\t2\t100\t0"])
      (tok "init_node") (tok "term_node") none =
    read_net_file
      ([tok "a1", tok "a2", tok "a3", tok "a4", tok "a5", tok "a6", tok "a7", tok "a8"] ++
       [tok "~\tinit_node\tterm_node\tcapacity\t;", tok "0\t1\t2\t100\t0"])
      (tok "init_node") (tok "term_node") none ∧
    (tildeTok ∉ [tok "capacity", tok "geometry"] ∧
     semiTok ∉ [tok "capacity", tok "geometry"] ∧
     tildeTok ∉ [tok "init_node", tok "term_node", tok "key"] ∧
     semiTok ∉ [tok "init_node", tok "term_node", tok "key"]) := by
  constructor
  · exact read_net_file_metadata_and_sentinels.1
      [tok "m1", tok "m2", tok "m3", tok "m4", tok "m5", tok "m6", tok "m7", tok "m8"]
      [tok "a1", tok "a2", tok "a3", tok "a4", tok "a5", tok "a6", tok "a7", tok "a8"]
      [tok "~\tinit_node\tterm_node\tcapacity\t;", tok "0\t1\t2\t100\t0"]
      (tok "init_node") (tok "term_node") none rfl rfl
  · exact read_net_file_metadata_and_sentinels.2
      [tok "m1", tok "m2", tok "m3", tok "m4", tok "m5", tok "m6", tok "m7", tok "m8",
       tok "~\tinit_node\tterm_node\tcapacity\t;", tok "0\t1\t2\t100\t0"]
      (tok "init_node") (tok "term_node") none
      ⟨[tok "init_node", tok "term_node", tok "key"],
       [[tok "1", tok "2", tok "0"]],
       [tok "capacity", tok "geometry"],
       [[tok "100", tok "None"]]⟩
      (by with_unfolding_all rfl)

/-! ## `convert_to_networkx`

The Python function mutates its arguments: it assigns `node_df["x"]` and
`node_df["y"]` from the geometry column and renames the flow index levels
in place before joining.  The embedding passes that state explicitly: it
returns the post-state of the node table and of the (optional) flow table
alongside the constructed graph.  `net_df.join(flow_df)` is a left join on
the composite index with the edge table as base (pandas `join` defaults to
`how="left"`); an edge row whose key has no flow row keeps only its base
attributes, which the graph edge records as a `none` flow component. -/

/-- `df[name] = vals`: overwrite the column if it exists, else append it. -/
def setCol (columns : List (Tok × List Tok)) (name : Tok) (vals : List Tok) :
    List (Tok × List Tok) :=
  if columns.any (fun c => c.1 == name) then
    columns.map (fun c => if c.1 == name then (c.1, vals) else c)
  else columns ++ [(name, vals)]

/-- `df[name]`, as `none` when the column is absent. -/
def getCol (columns : List (Tok × List Tok)) (name : Tok) : Option (List Tok) :=
  (columns.find? (fun c => c.1 == name)).map (fun c => c.2)

structure Graph where
  nodes : List Tok
  edges : List (List Tok × List Tok × Option (List Tok))
deriving DecidableEq

/-- The flow row joined onto an edge key, if any (first match on the
composite index). -/
def flowLookup (flow : Option IxDFrame) (key : List Tok) : Option (List Tok) :=
  match flow with
  | none => none
  | some f => ((f.index.zip f.rows).find? (fun kr => kr.1 == key)).map (fun kr => kr.2)

def convert_to_networkx (node_df : NodeFrame) (net_df : IxDFrame)
    (flow_df : Option IxDFrame) : NodeFrame × Option IxDFrame × Graph :=
  let cols2 := setCol (setCol node_df.columns xTok (node_df.geom.map Prod.fst))
    yTok (node_df.geom.map Prod.snd)
  let node2 : NodeFrame := { node_df with columns := cols2 }
  let flow2 : Option IxDFrame := flow_df.map (fun f => { f with ixNames := net_df.ixNames })
  let edges := (net_df.index.zip net_df.rows).map
    (fun kr => (kr.1, kr.2, flowLookup flow2 kr.1))
  (node2, flow2, ⟨node2.index, edges⟩)

theorem getCol_map_overwrite (name : Tok) (vals : List Tok) :
    ∀ columns : List (Tok × List Tok), columns.any (fun c => c.1 == name) = true →
      getCol (columns.map (fun c => if c.1 == name then (c.1, vals) else c)) name =
        some vals := by
  intro columns hany
  induction columns with
  | nil => simp at hany
  | cons c cs ih =>
    by_cases hc : (c.1 == name) = true
    · simp [getCol, List.find?, hc]
    · have hb : (c.1 == name) = false := by
        simp only [Bool.not_eq_true] at hc
        exact hc
      have hany2 : cs.any (fun c => c.1 == name) = true := by
        simp only [List.any_cons, hb, Bool.false_or] at hany
        exact hany
      have hrec := ih hany2
      simp only [getCol] at hrec ⊢
      simp only [List.map_cons, List.find?]
      rw [if_neg hc]
      simp only [hb]
      exact hrec

theorem getCol_setCol_self (columns : List (Tok × List Tok)) (name : Tok)
    (vals : List Tok) : getCol (setCol columns name vals) name = some vals := by
  by_cases hany : columns.any (fun c => c.1 == name) = true
  · rw [setCol, if_pos hany]
    exact getCol_map_overwrite name vals columns hany
  · rw [setCol, if_neg hany]
    have hnone : columns.find? (fun c => c.1 == name) = none := by
      rw [List.find?_eq_none]
      intro p hp hpred
      exact hany (List.any_eq_true.mpr ⟨p, hp, hpred⟩)
    rw [getCol, List.find?_append, hnone]
    simp [List.find?]

theorem getCol_setCol_ne (columns : List (Tok × List Tok)) (name name2 : Tok)
    (vals : List Tok) (h : (name2 == name) = false) :
    getCol (setCol columns name vals) name2 = getCol columns name2 := by
  by_cases hany : columns.any (fun c => c.1 == name) = true
  · rw [setCol, if_pos hany]
    clear hany
    induction columns with
    | nil => rfl
    | cons c cs ih =>
      by_cases hc2 : (c.1 == name2) = true
      · have hc1 : (c.1 == name) = false := by
          cases hcc : (c.1 == name) with
          | false => rfl
          | true =>
            have e2 : c.1 = name2 := eq_of_beq hc2
            have e1 : c.1 = name := eq_of_beq hcc
            have e3 : name2 = name := e2.symm.trans e1
            rw [e3, beq_self_eq_true] at h
            exact absurd h (by simp)
        simp only [getCol, List.map_cons, List.find?]
        rw [if_neg (by simp [hc1] : ¬ (c.1 == name) = true)]
        simp only [hc2]
      · have hb2 : (c.1 == name2) = false := by
          simp only [Bool.not_eq_true] at hc2
          exact hc2
        have hfst : ((if c.1 == name then ((c.1, vals) : Tok × List Tok) else c)).1 = c.1 := by
          by_cases hcc : (c.1 == name) = true <;> simp [hcc]
        have hrec := ih
        simp only [getCol] at hrec ⊢
        simp only [List.map_cons, List.find?]
        rw [hfst]
        simp only [hb2]
        exact hrec
  · rw [setCol, if_neg hany]
    have hx : ([(name, vals)] : List (Tok × List Tok)).find? (fun c => c.1 == name2) =
        none := by
      have hne : (name == name2) = false := by
        apply beq_eq_false_iff_ne.mpr
        exact Ne.symm (beq_eq_false_iff_ne.mp h)
      simp [List.find?, hne]
    rw [getCol, getCol, List.find?_append, hx, Option.or_none]

/-! ## Claims about `convert_to_networkx` -/

/-- C9: `convert_to_networkx` mutates its arguments in place.  After every
call the caller's node table carries `x` and `y` columns assigned (or
overwritten) from its geometry, and when a flow table is supplied its
index level names have been renamed in place to the edge table's index
level names.  The embedding returns the post-state of both arguments; this
theorem pins those post-states down. -/
theorem convert_to_networkx_mutates (node_df : NodeFrame) (net_df : IxDFrame)
    (flow_df : IxDFrame) :
    getCol (convert_to_networkx node_df net_df (some flow_df)).1.columns xTok =
      some (node_df.geom.map Prod.fst) ∧
    getCol (convert_to_networkx node_df net_df (some flow_df)).1.columns yTok =
      some (node_df.geom.map Prod.snd) ∧
    (convert_to_networkx node_df net_df (some flow_df)).2.1 =
      some { flow_df with ixNames := net_df.ixNames } := by
  refine ⟨?_, ?_, rfl⟩
  · have hcols : (convert_to_networkx node_df net_df (some flow_df)).1.columns =
        setCol (setCol node_df.columns xTok (node_df.geom.map Prod.fst)) yTok
          (node_df.geom.map Prod.snd) := rfl
    rw [hcols, getCol_setCol_ne _ _ _ _ (by decide), getCol_setCol_self]
  · have hcols : (convert_to_networkx node_df net_df (some flow_df)).1.columns =
        setCol (setCol node_df.columns xTok (node_df.geom.map Prod.fst)) yTok
          (node_df.geom.map Prod.snd) := rfl
    rw [hcols, getCol_setCol_self]

/-- C5: the edge/flow join is a left join with the edge table as base.
Every edge-table row yields exactly one edge of the graph, in order and
carrying its key and base attributes; an edge whose key has a matching
flow row carries that flow row's attributes, and an edge without one
carries `none` — no row is dropped or duplicated. -/
theorem convert_to_networkx_left_join (node_df : NodeFrame) (net_df : IxDFrame)
    (flow_df : IxDFrame)
    (hn : net_df.rows.length = net_df.index.length)
    (hf : flow_df.rows.length = flow_df.index.length) :
    ((convert_to_networkx node_df net_df (some flow_df)).2.2.edges.length =
      net_df.index.length) ∧
    (∀ i, i < net_df.index.length →
      ((convert_to_networkx node_df net_df (some flow_df)).2.2.edges.getD i
          ([], [], none)).1 = net_df.index.getD i [] ∧
      ((convert_to_networkx node_df net_df (some flow_df)).2.2.edges.getD i
          ([], [], none)).2.1 = net_df.rows.getD i []) ∧
    (∀ e ∈ (convert_to_networkx node_df net_df (some flow_df)).2.2.edges,
      (e.1 ∉ flow_df.index → e.2.2 = none) ∧
      (e.1 ∈ flow_df.index →
        ∃ fr, e.2.2 = some fr ∧ (e.1, fr) ∈ flow_df.index.zip flow_df.rows)) := by
  have hedges : (convert_to_networkx node_df net_df (some flow_df)).2.2.edges =
      (net_df.index.zip net_df.rows).map (fun kr => (kr.1, kr.2,
        flowLookup (some { flow_df with ixNames := net_df.ixNames }) kr.1)) := rfl
  have hzlen : (net_df.index.zip net_df.rows).length = net_df.index.length := by
    rw [List.length_zip, hn, Nat.min_self]
  refine ⟨?_, ?_, ?_⟩
  · rw [hedges, List.length_map, hzlen]
  · intro i hi
    have hiz : i < (net_df.index.zip net_df.rows).length := by rw [hzlen]; exact hi
    have him : i < ((net_df.index.zip net_df.rows).map (fun kr => (kr.1, kr.2,
        flowLookup (some { flow_df with ixNames := net_df.ixNames }) kr.1))).length := by
      rw [List.length_map]; exact hiz
    have hir : i < net_df.rows.length := by rw [hn]; exact hi
    rw [hedges, List.getD_eq_getElem _ _ him, List.getElem_map, List.getElem_zip,
      List.getD_eq_getElem _ _ hi, List.getD_eq_getElem _ _ hir]
    exact ⟨rfl, rfl⟩
  · intro e he
    rw [hedges] at he
    obtain ⟨kr, hkr, hkre⟩ := List.mem_map.mp he
    subst hkre
    constructor
    · intro hnot
      show flowLookup (some { flow_df with ixNames := net_df.ixNames }) kr.1 = none
      rw [flowLookup]
      have hfind : (flow_df.index.zip flow_df.rows).find? (fun p => p.1 == kr.1) =
          none := by
        rw [List.find?_eq_none]
        intro x hx hpred
        obtain ⟨a, b⟩ := x
        have hx1 : a ∈ flow_df.index := (List.of_mem_zip hx).1
        have : a = kr.1 := eq_of_beq hpred
        rw [this] at hx1
        exact hnot hx1
      rw [hfind]
      rfl
    · intro hmem
      obtain ⟨j, hj, hjv⟩ := List.getElem_of_mem hmem
      have hjz : j < (flow_df.index.zip flow_df.rows).length := by
        rw [List.length_zip, hf, Nat.min_self]; exact hj
      have hjr : j < flow_df.rows.length := by rw [hf]; exact hj
      have hmemz : (kr.1, flow_df.rows[j]) ∈ flow_df.index.zip flow_df.rows := by
        have hz : (flow_df.index.zip flow_df.rows)[j] =
            (flow_df.index[j], flow_df.rows[j]) := List.getElem_zip
        rw [hjv] at hz
        rw [← hz]
        exact List.getElem_mem hjz
      have hsome : ((flow_df.index.zip flow_df.rows).find? (fun p => p.1 == kr.1)).isSome := by
        rw [List.find?_isSome]
        exact ⟨(kr.1, flow_df.rows[j]), hmemz, by simp⟩
      obtain ⟨res, hres⟩ := Option.isSome_iff_exists.mp hsome
      refine ⟨res.2, ?_, ?_⟩
      · show flowLookup (some { flow_df with ixNames := net_df.ixNames }) kr.1 =
          some res.2
        rw [flowLookup]
        rw [show ({ flow_df with ixNames := net_df.ixNames } : IxDFrame).index =
          flow_df.index from rfl]
        rw [show ({ flow_df with ixNames := net_df.ixNames } : IxDFrame).rows =
          flow_df.rows from rfl]
        rw [hres]
        rfl
      · have hp := List.find?_some hres
        have hm := List.mem_of_find?_eq_some hres
        have hres1 : res.1 = kr.1 := eq_of_beq hp
        have : ((kr.1, res.2) : List Tok × List Tok) = res := by
          rw [← hres1]
        rw [this]
        exact hm

theorem convert_to_networkx_left_join_witness :
    (convert_to_networkx ⟨tok "node", [tok "1"], [], []⟩
      ⟨[tok "init_node", tok "term_node", tok "key"],
       [[tok "1", tok "2", tok "0"], [tok "1", tok "3", tok "0"]],
       [tok "capacity"], [[tok "100"], [tok "200"]]⟩
      (some ⟨[tok "From", tok "To", tok "key"], [[tok "1", tok "2", tok "0"]],
       [tok "volume"], [[tok "5"]]⟩)).2.2.edges.length = 2 :=
  (convert_to_networkx_left_join ⟨tok "node", [tok "1"], [], []⟩
    ⟨[tok "init_node", tok "term_node", tok "key"],
     [[tok "1", tok "2", tok "0"], [tok "1", tok "3", tok "0"]],
     [tok "capacity"], [[tok "100"], [tok "200"]]⟩
    ⟨[tok "From", tok "To", tok "key"], [[tok "1", tok "2", tok "0"]],
     [tok "volume"], [[tok "5"]]⟩ rfl rfl).1
